import Mathlib

/-!
Verification development for the LLM-ChessCoach move-evaluation and
session-state engine.

The Python source is shallowly embedded:
* the external chess-rules library (python-chess) is abstracted as a
  `ChessLib` record of operations, since the spec treats it as an assumed
  correct external collaborator;
* the Stockfish subprocess is an oracle `Pos -> EngineOutcome` giving the
  raw `engine.analyse` result (the node/multipv resource plumbing is folded
  into the oracle request, it does not change the returned data shape);
* the external LLM HTTP call is an oracle returning either the parsed JSON
  object or an error (any exception in the request/parse block);
* Python floats are modelled as rationals, dict payloads as structures with
  `Option` fields standing for possibly-absent keys, and raising as
  `Except.error`.
-/

/-! ## Python string helpers (`str.split()`, `str.strip()`, `" ".join`)

`_truncate_words` in `llm_coach.py` uses Python's whitespace split.  We model
Python strings at the character-list level. -/

/-- Python `str.split()` splitter: cut at every whitespace character.
Returns the raw fields including empties (one more field than cuts). -/
def splitWsChar : List Char → List (List Char)
  | [] => [[]]
  | c :: cs =>
    match splitWsChar cs with
    | [] => [[]]
    | w :: ws => if c.isWhitespace then [] :: w :: ws else (c :: w) :: ws

/-- Python `str.split()` on a character list: whitespace-separated words,
empty fields dropped. -/
def pyWords (l : List Char) : List (List Char) :=
  (splitWsChar l).filter (fun w => !w.isEmpty)

/-- Python `str.strip()`: drop leading and trailing whitespace. -/
def pyStrip (l : List Char) : List Char :=
  ((l.dropWhile Char.isWhitespace).reverse.dropWhile Char.isWhitespace).reverse

/-- `llm_coach._truncate_words`: keep at most `max_words` whitespace-separated
words; below the limit the stripped text is returned unchanged, above it the
first `max_words` words are joined with single spaces. -/
def _truncate_words (text : String) (max_words : Nat) : String :=
  let words := pyWords text.toList
  if words.length ≤ max_words then String.mk (pyStrip text.toList)
  else String.mk (List.intercalate [' '] (words.take max_words))

/-- Number of Python words in a string (used to state the word-count bounds). -/
def pyWordCount (s : String) : Nat := (pyWords s.toList).length

/-! ## Severity classification (`llm_coach.severity_from_cp_loss`) -/

/-- Python builtin `abs()` on the rational model of floats (an executable
definition, equal to Mathlib’s `|·|`). -/
def pyAbs (x : Rat) : Rat := if x < 0 then -x else x

/-- Threshold below which a loss counts as `best` (pawns). -/
def bestCutoff : Rat := 5 / 100

/-- Threshold below which a loss counts as `good` (pawns). -/
def goodCutoff : Rat := 20 / 100

/-- Threshold below which a loss counts as `inaccuracy` (pawns). -/
def inaccuracyCutoff : Rat := 50 / 100

/-- Threshold below which a loss counts as `mistake` (pawns). -/
def mistakeCutoff : Rat := 150 / 100

/-- `llm_coach.severity_from_cp_loss`: classify the absolute evaluation loss
(in pawns) against the tunable thresholds. -/
def severity_from_cp_loss (cp_loss_pawns : Rat) : String :=
  let cp := pyAbs cp_loss_pawns
  if cp ≤ bestCutoff then "best"
  else if cp ≤ goodCutoff then "good"
  else if cp ≤ inaccuracyCutoff then "inaccuracy"
  else if cp ≤ mistakeCutoff then "mistake"
  else "blunder"

/-- Rank of a severity label in the ordered scale
best < good < inaccuracy < mistake < blunder (smaller is better). -/
def sevRank : String → Nat
  | "best" => 0
  | "good" => 1
  | "inaccuracy" => 2
  | "mistake" => 3
  | "blunder" => 4
  | _ => 5

/-- Python `move.get("cp_loss") or 0.0`: an absent value falls back to zero
(a present zero is also zero, matching the falsy behaviour). -/
def pyOr (o : Option Rat) : Rat := o.getD 0

/-- Python f-string interpolation of a possibly-`None` value. -/
def pyStr (o : Option String) : String := o.getD "None"

/-- Models Python `f"{x:.2f}"` under the rational abstraction of floats:
sign, integer part and two rounded decimal digits. -/
def fmt2 (x : Rat) : String :=
  let sign := if x < 0 then "-" else ""
  let hund : Int := (pyAbs x * 100 + 1 / 2).floor
  let ip := hund / 100
  let fp := hund % 100
  sign ++ toString ip ++ "." ++ (if fp < 10 then "0" else "") ++ toString fp

/-! ## External chess-rules library (python-chess), abstracted

The spec treats the rules library as an assumed-correct leaf dependency, so
the embedding is parametric in it.  `san`/`uci` are total: the code only
formats legal moves (illegal SAN requests are caught where the source
catches them, via the `Option`-valued parsers). -/

/-- Operations of the external chess-rules library used by the core. -/
structure ChessLib (Pos Move : Type) where
  applyMove : Pos → Move → Pos
  legal : Pos → Move → Bool
  fen : Pos → String
  fromFen : String → Pos
  san : Pos → Move → String
  parseUci : String → Option Move
  parseSan : Pos → String → Option Move
  uci : Move → String
  turnWhite : Pos → Bool
  isGameOver : Pos → Bool

/-- A `chess.Board`: current position plus the undo stack that
`push`/`pop` maintain. -/
structure ChessBoard (Pos : Type) where
  pos : Pos
  stack : List Pos
deriving DecidableEq

/-- `board.push(move)`: apply the move, remembering the previous state. -/
def ChessBoard.push {Pos Move : Type} (lib : ChessLib Pos Move)
    (b : ChessBoard Pos) (m : Move) : ChessBoard Pos :=
  { pos := lib.applyMove b.pos m, stack := b.pos :: b.stack }

/-- `board.pop()`: restore the previous state (identity on an empty stack,
which the embedded code never hits). -/
def ChessBoard.pop {Pos : Type} (b : ChessBoard Pos) : ChessBoard Pos :=
  match b.stack with
  | p :: rest => { pos := p, stack := rest }
  | [] => b

/-! ## Engine adapter (`stockfish_engine.StockfishAnalyzer`) -/

/-- White-point-of-view engine score as read off a python-chess `PovScore`:
either a mate indicator (`score.white().mate()`) or a centipawn value
(`score.white().score()`, `none` modelling Python `None`). -/
inductive UciScore where
  | mate (n : Option Int)
  | cp (c : Option Int)
deriving DecidableEq

/-- One `info` record returned by `engine.analyse` (one PV). -/
structure EngineInfo (Move : Type) where
  score : Option UciScore := none
  pv : List Move := []
  nodes : Nat := 0
  time : Rat := 0
deriving DecidableEq

/-- Result of one `engine.analyse` call: the MultiPV info list, or the
exception raised by the subprocess (crash, malformed output, ...). -/
inductive EngineOutcome (Move : Type) where
  | ok (infos : List (EngineInfo Move))
  | err (msg : String)
deriving DecidableEq

/-- The `score` dictionary of an evaluation (`cp` and/or `mate` keys). -/
structure Score where
  cp : Option Int := none
  mate : Option Int := none
deriving DecidableEq

/-- One MultiPV entry of the normalized evaluation. -/
structure PVEntry where
  move_san : Option String := none
  move_uci : Option String := none
  cp : Option Int := none
  mate : Option Int := none
  line_san : List String := []
deriving DecidableEq

/-- The dictionary returned by `StockfishAnalyzer.analyze_position`. -/
structure PositionEval where
  score : Score := {}
  best_move : Option String := none
  best_move_san : Option String := none
  pv : List PVEntry := []
  nodes : Nat := 0
  time : Rat := 0
  error : Option String := none
deriving DecidableEq

/-- `score_dict` normalization: missing scores default to `Cp(0)`; a mate
score stores the mate count, a centipawn score stores the value with `None`
defended to `0`. -/
def scoreDict (s : Option UciScore) : Score :=
  match s.getD (.cp (some 0)) with
  | .mate n => { mate := n }
  | .cp c => { cp := some (c.getD 0) }

/-- The SAN walk over a principal variation: render each move on a copy of
the board, pushing as it goes. -/
def pvSanWalk {Pos Move : Type} (lib : ChessLib Pos Move) : Pos → List Move → List String
  | _, [] => []
  | b, m :: rest => lib.san b m :: pvSanWalk lib (lib.applyMove b m) rest

/-- Normalization of one `info` into a MultiPV entry
(`pv[:10]` truncation, first SAN doubling as `move_san`). -/
def mkPvEntry {Pos Move : Type} (lib : ChessLib Pos Move) (pos : Pos)
    (info : EngineInfo Move) : PVEntry :=
  let sd := scoreDict info.score
  let pv_san := pvSanWalk lib pos (info.pv.take 10)
  { move_san := pv_san.head?,
    move_uci := (info.pv.head?).map lib.uci,
    cp := sd.cp,
    mate := sd.mate,
    line_san := pv_san }

/-- The body of `StockfishAnalyzer.analyze_position` once the engine handle
exists: normalize the analyse result, or catch the engine exception and
return the zero-score, empty-lines evaluation with the error attached. -/
def analyze_core {Pos Move : Type} (lib : ChessLib Pos Move)
    (oracle : Pos → EngineOutcome Move) (pos : Pos) : PositionEval :=
  match oracle pos with
  | .err msg =>
      { score := { cp := some 0 }, best_move := none, best_move_san := none,
        pv := [], nodes := 0, time := 0, error := some msg }
  | .ok infos =>
      let entries := infos.map (mkPvEntry lib pos)
      { score := match infos.head? with
          | some i => scoreDict i.score
          | none => {},
        best_move := entries.head?.bind (·.move_uci),
        best_move_san := entries.head?.bind (·.move_san),
        pv := entries,
        nodes := (infos.head?.map (·.nodes)).getD 0,
        time := (infos.head?.map (·.time)).getD 0,
        error := none }

/-- The `RuntimeError` message raised on a missing engine handle. -/
def engineNotInitializedMsg : String :=
  "Engine not initialized. Use within context manager."

/-- `StockfishAnalyzer.analyze_position`: raises `RuntimeError` when the
engine handle was never started, otherwise runs `analyze_core`.  The engine
handle is `Option Unit` (`self.engine`), raising is `Except.error`. -/
def analyze_position {Pos Move : Type} (lib : ChessLib Pos Move)
    (engine : Option Unit) (oracle : Pos → EngineOutcome Move) (pos : Pos) :
    Except String PositionEval :=
  match engine with
  | none => .error engineNotInitializedMsg
  | some _ => .ok (analyze_core lib oracle pos)

/-- The dictionary returned by `StockfishAnalyzer.compare_move`. -/
structure CompareResult where
  move_played : String
  move_played_san : String
  best_move : Option String
  best_move_san : Option String
  eval_before : PositionEval
  eval_after : PositionEval
  eval_loss : Rat
  is_best : Bool
deriving DecidableEq

/-- The body of `StockfishAnalyzer.compare_move` with a live engine handle:
evaluate, hypothetically push the move, evaluate again, pop, and derive the
mover-perspective centipawn loss (white-relative scores negated for a black
mover; `board.turn` is read after the pop, i.e. on the restored board).
Returns the comparison together with the board the caller observes. -/
def compare_core {Pos Move : Type} (lib : ChessLib Pos Move)
    (oracle : Pos → EngineOutcome Move) (b : ChessBoard Pos) (move_played : Move) :
    CompareResult × ChessBoard Pos :=
  let eval_before := analyze_core lib oracle b.pos
  let best_move := eval_before.best_move
  let move_played_uci := lib.uci move_played
  let is_best : Bool := match best_move with
    | some bm => bm == move_played_uci
    | none => false
  let b1 := ChessBoard.push lib b move_played
  let eval_after := analyze_core lib oracle b1.pos
  let b2 := ChessBoard.pop b1
  let mover_is_white := lib.turnWhite b2.pos
  let eval_loss_cp : Int :=
    match eval_before.score.cp, eval_after.score.cp with
    | some before_cp_white, some after_cp_white =>
        if mover_is_white then before_cp_white - after_cp_white
        else (-before_cp_white) - (-after_cp_white)
    | _, _ => 0
  ({ move_played := move_played_uci,
     move_played_san := lib.san b2.pos move_played,
     best_move := best_move,
     best_move_san := eval_before.best_move_san,
     eval_before := eval_before,
     eval_after := eval_after,
     eval_loss := if eval_loss_cp = 0 then 0 else (eval_loss_cp : Rat) / 100,
     is_best := is_best }, b2)

/-- `StockfishAnalyzer.compare_move`: the first `analyze_position` call
raises when the engine handle is missing; otherwise the comparison runs to
completion (all engine failures are caught inside `analyze_position`). -/
def compare_move {Pos Move : Type} (lib : ChessLib Pos Move)
    (engine : Option Unit) (oracle : Pos → EngineOutcome Move)
    (b : ChessBoard Pos) (move_played : Move) :
    Except String (CompareResult × ChessBoard Pos) :=
  match engine with
  | none => .error engineNotInitializedMsg
  | some _ => .ok (compare_core lib oracle b move_played)

/-! ## Feedback payloads and the coaching resolver (`llm_coach.py`)

A `Feedback` record models the dict payload threaded between the session
store / pipeline and the coaching functions; `Option` fields model keys that
some producers omit (engine-authored records carry only a few keys). -/

/-- A practice drill synthesized from a mistake. -/
structure Drill where
  fen : Option String := none
  side_to_move : Option String := none
  objective : String := ""
  best_line_san : List String := []
  alt_traps_san : List String := []
deriving DecidableEq

/-- The move/feedback dict: one persisted history record, also the payload
handed to the coaching resolver. -/
structure Feedback where
  move_no : Nat := 0
  side : Option String := none
  san : Option String := none
  uci : Option String := none
  fen_before : Option String := none
  fen_after : Option String := none
  cp_before : Option Int := none
  cp_after : Option Int := none
  cp_loss : Option Rat := none
  severity : Option String := none
  best_move_san : Option String := none
  multipv : List PVEntry := []
  basic : Option String := none
  extended : Option String := none
  source : Option String := none
  is_engine_move : Bool := false
deriving DecidableEq

/-- `llm_coach.rule_basic`: deterministic one-liner under 15 words. -/
def rule_basic (move : Feedback) : String :=
  let cp_loss := pyOr move.cp_loss
  let best := move.best_move_san
  if severity_from_cp_loss cp_loss = "best" ∨ severity_from_cp_loss cp_loss = "good" then
    _truncate_words "Solid move. Keep building your plan." 15
  else
    match best with
    | some b =>
        if b = "" then _truncate_words "Missed stronger option. Improve piece activity." 15
        else _truncate_words ("Better was " ++ b ++ ". Consider the threats.") 15
    | none => _truncate_words "Missed stronger option. Improve piece activity." 15

/-- `llm_coach.rule_extended`: concise extended feedback under 100 words. -/
def rule_extended (move : Feedback) : String :=
  let san := move.san
  let best := move.best_move_san
  let cp_loss := pyOr move.cp_loss
  let best_line : List String := match move.multipv with
    | [] => []
    | e :: _ => e.line_san
  let why := if cp_loss ≥ 1 / 2 then
      "This line protects against threats and gains a positional edge."
    else "This improves piece activity and reduces tactical weaknesses."
  let text :=
    "You played " ++ pyStr san ++ ". Engine prefers " ++ pyStr best ++ ". " ++
    "Evaluation worsened by " ++ fmt2 cp_loss ++ " pawns. " ++
    "Main line: " ++ String.intercalate " " (best_line.take 8) ++ ". " ++ why
  _truncate_words text 100

/-- `llm_coach.make_drills`: one drill for inaccuracy/mistake/blunder moves,
with the objective escalated when the engine main line carries a check or
mate marker. -/
def make_drills (move : Feedback) : List Drill :=
  let severity := severity_from_cp_loss (pyOr move.cp_loss)
  if severity = "mistake" ∨ severity = "blunder" ∨ severity = "inaccuracy" then
    let best_line : List String := match move.multipv with
      | [] => []
      | e :: _ => e.line_san
    let alt : List String := match move.multipv with
      | _ :: e2 :: _ => e2.line_san
      | _ => []
    let joined := String.intercalate " " best_line
    let objective :=
      if 1 ≤ best_line.length ∧ (joined.contains '#' ∨ joined.contains '+') then
        "Convert advantage: find forcing line"
      else "Find the best continuation"
    [{ fen := move.fen_before, side_to_move := move.side, objective := objective,
       best_line_san := best_line.take 12, alt_traps_san := alt.take 8 }]
  else []

/-- One drill of the JSON object returned by the external text generator. -/
structure LLMDrill where
  objective : Option String := none
  best_line_san : Option (List String) := none
  alt_traps_san : Option (List String) := none
deriving DecidableEq

/-- The parsed JSON object returned by the external text generator. -/
structure LLMObj where
  basic : Option String := none
  extended : Option String := none
  tags : Option (List String) := none
  drills : Option (List LLMDrill) := none
deriving DecidableEq

/-- The dict returned by `coach_move_with_llm`. -/
structure CoachResult where
  basic : String
  extended : String
  drills : List Drill
  tags : List String
  source : String
deriving DecidableEq

/-- Python `obj.get(key, dflt) or dflt`: absent or empty falls back. -/
def pyOrStr (o : Option String) (dflt : String) : String :=
  match o with
  | some s => if s = "" then dflt else s
  | none => dflt

/-- `llm_coach.coach_move_with_llm`.  `llmCall` is the external HTTP
request plus code-fence stripping and JSON parsing (any exception in that
block is `.error`); `api_key` is the `AI_API_KEY` environment credential.
Rule-based defaults are always built first and returned when the external
text path is disabled, the credential is absent, or the call fails. -/
def coach_move_with_llm (llmCall : Feedback → String → Except String LLMObj)
    (api_key : Option String) (move : Feedback) (level : String)
    (use_llm : Bool) : CoachResult :=
  let result : CoachResult :=
    { basic := rule_basic move, extended := rule_extended move,
      drills := make_drills move, tags := [], source := "rules" }
  if ¬ use_llm then result
  else
    match api_key with
    | none => result
    | some _ =>
      match llmCall move level with
      | .error _ => result
      | .ok obj =>
        let basic := _truncate_words (pyOrStr obj.basic result.basic) 15
        let extended := _truncate_words (pyOrStr obj.extended result.extended) 100
        let normalized_drills := ((obj.drills.getD []).take 2).map (fun d =>
          { fen := move.fen_before, side_to_move := move.side,
            objective := pyOrStr d.objective "Find the best continuation",
            best_line_san := d.best_line_san.getD [],
            alt_traps_san := d.alt_traps_san.getD [] })
        { basic := basic, extended := extended,
          drills := if normalized_drills.isEmpty then result.drills else normalized_drills,
          tags := obj.tags.getD [],
          source := "llm" }

/-! ## Live sessions (`live_sessions.py`) -/

/-- A live session (`SessionManager` session dict): configuration, the
owned board, and the ordered move-feedback history. -/
structure Session (Pos : Type) where
  id : String := ""
  skill_level : String := "intermediate"
  game_mode : String := "play"
  engine_skill_level : Int := 8
  engine_time_ms : Int := 2000
  created_at : Rat := 0
  board : ChessBoard Pos
  moves : List Feedback := []
deriving DecidableEq

/-- `SessionManager._parse_move`: try the coordinate (UCI) form when the
length fits, falling back to SAN; exceptions inside the tries are the
`none` branches of the library parsers. -/
def _parse_move {Pos Move : Type} (lib : ChessLib Pos Move)
    (board : Pos) (move_str : String) : Option (Move × String × String) :=
  let viaUci : Option Move :=
    if move_str.length = 4 ∨ move_str.length = 5 then
      match lib.parseUci move_str with
      | some m => if lib.legal board m then some m else none
      | none => none
    else none
  let move? : Option Move :=
    match viaUci with
    | some m => some m
    | none => lib.parseSan board move_str
  match move? with
  | none => none
  | some m => some (m, lib.san board m, lib.uci m)

/-- The dict returned by the engine's `get_engine_move` (best-reply search
at a configured strength); supplied by the external engine, hence an oracle. -/
structure EngineMoveResponse where
  move_uci : Option String := none
  move_san : Option String := none
  score : Score := {}
deriving DecidableEq

/-- The `engine_move` record returned to the caller of `apply_move`. -/
structure EngineMoveRec where
  san : Option String
  uci : String
  fen_after : String
  score : Score
deriving DecidableEq

/-- `SessionManager._get_engine_move`: ask the engine for its reply on the
current position; when a move comes back, parse and push it onto the
session board (an unparsable UCI string from the engine raises, hence
`Except`).  A falsy (`None` or empty) `move_uci` yields no engine move. -/
def _get_engine_move {Pos Move : Type} (lib : ChessLib Pos Move)
    (engOracle : Pos → EngineMoveResponse) (sess : Session Pos) :
    Except String (Option EngineMoveRec × Session Pos) :=
  let board := sess.board
  let engine_response := engOracle board.pos
  match engine_response.move_uci with
  | some u =>
    if u = "" then .ok (none, sess)
    else
      match lib.parseUci u with
      | none => .error "invalid uci from engine"
      | some m =>
        let b2 := ChessBoard.push lib board m
        .ok (some { san := engine_response.move_san, uci := u,
                    fen_after := lib.fen b2.pos, score := engine_response.score },
             { sess with board := b2 })
  | none => .ok (none, sess)

/-- The dict returned by `apply_move`. -/
structure ApplyResult where
  legal : Bool
  error : Option String := none
  human_feedback : Option Feedback := none
  engine_move : Option EngineMoveRec := none
deriving DecidableEq

/-- The rejection returned for an unparsable or illegal move. -/
def rejectResult : ApplyResult := { legal := false, error := some "Illegal move" }

/-- `SessionManager.apply_move` on a session: parse and legality-check the
move (rejecting without touching the session), analyze it, attach coaching
text, append the human `Feedback` record and advance the board; in `play`
mode on a non-terminal position additionally obtain and apply the engine
reply and append its distinctly-flagged record.
`RedisSessionManager.apply_move` repeats this body verbatim in the source,
so both managers share this definition. -/
def SessionManager.apply_move {Pos Move : Type} (lib : ChessLib Pos Move)
    (oracle : Pos → EngineOutcome Move) (engOracle : Pos → EngineMoveResponse)
    (llmCall : Feedback → String → Except String LLMObj) (api_key : Option String)
    (sess : Session Pos) (move_str : String) :
    Except String (ApplyResult × Session Pos) :=
  let board := sess.board
  match _parse_move lib board.pos move_str with
  | none => .ok (rejectResult, sess)
  | some (move, san, uci) =>
    if lib.legal board.pos move = false then .ok (rejectResult, sess)
    else
      let fen_before := lib.fen board.pos
      let move_no := sess.moves.length + 1
      let side := if lib.turnWhite board.pos then "white" else "black"
      let eval_before := analyze_core lib oracle board.pos
      let comparison := (compare_core lib oracle board move).1
      let board1 := ChessBoard.push lib board move
      let fen_after := lib.fen board1.pos
      let before_cp_white := eval_before.score.cp
      let after_cp_white := comparison.eval_after.score.cp
      let mover_is_white := side = "white"
      let cp_before : Option Int :=
        match before_cp_white, after_cp_white with
        | some bc, some _ => some (if mover_is_white then bc else -bc)
        | _, _ => none
      let cp_after : Option Int :=
        match before_cp_white, after_cp_white with
        | some _, some ac => some (if mover_is_white then ac else -ac)
        | _, _ => none
      let cp_loss := comparison.eval_loss
      let best_move_san := eval_before.best_move_san
      let multipv := eval_before.pv.map (fun e => { e with line_san := e.line_san.take 10 })
      let feedback0 : Feedback :=
        { move_no := move_no, side := some side, san := some san, uci := some uci,
          fen_before := some fen_before, fen_after := some fen_after,
          cp_before := cp_before, cp_after := cp_after, cp_loss := some cp_loss,
          severity := some (severity_from_cp_loss cp_loss),
          best_move_san := best_move_san, multipv := multipv }
      let level := sess.skill_level
      let coach := coach_move_with_llm llmCall api_key feedback0 level true
      let feedback := { feedback0 with
        basic := some coach.basic,
        extended := some coach.extended,
        source := some coach.source }
      let sess1 := { sess with board := board1, moves := sess.moves ++ [feedback] }
      if sess.game_mode = "play" ∧ lib.isGameOver board1.pos = false then
        match _get_engine_move lib engOracle sess1 with
        | .error e => .error e
        | .ok (engine_move, sess2) =>
          match engine_move with
          | some em =>
            let engine_feedback : Feedback :=
              { move_no := sess2.moves.length,
                side := some (if lib.turnWhite sess2.board.pos then "black" else "white"),
                san := em.san, uci := some em.uci, fen_after := some em.fen_after,
                is_engine_move := true }
            let sess3 := { sess2 with moves := sess2.moves ++ [engine_feedback] }
            .ok ({ legal := true, human_feedback := some feedback,
                   engine_move := some em }, sess3)
          | none =>
            .ok ({ legal := true, human_feedback := some feedback,
                   engine_move := none }, sess2)
      else
        .ok ({ legal := true, human_feedback := some feedback,
               engine_move := none }, sess1)

/-! ## Redis-backed sessions (`RedisSessionManager`)

The shared store is a keyed map to (serialized session, absolute expiry
time); time is discrete (seconds).  Expired entries behave as absent. -/

/-- Session TTL in seconds (24 hours). -/
def SESSION_TTL : Nat := 24 * 60 * 60

/-- The serialized session record (`_serialize_session`): the board is
stored as its FEN encoding. -/
structure SessD where
  id : String := ""
  skill_level : String := "intermediate"
  game_mode : String := "play"
  engine_skill_level : Int := 8
  engine_time_ms : Int := 2000
  created_at : Rat := 0
  board_fen : String := ""
  moves : List Feedback := []
deriving DecidableEq

/-- `RedisSessionManager._serialize_session`. -/
def _serialize_session {Pos Move : Type} (lib : ChessLib Pos Move)
    (sess : Session Pos) : SessD :=
  { id := sess.id, skill_level := sess.skill_level, game_mode := sess.game_mode,
    engine_skill_level := sess.engine_skill_level,
    engine_time_ms := sess.engine_time_ms, created_at := sess.created_at,
    board_fen := lib.fen sess.board.pos, moves := sess.moves }

/-- `RedisSessionManager._deserialize_session`: a fresh board is rebuilt
from the stored FEN (empty undo stack). -/
def _deserialize_session {Pos Move : Type} (lib : ChessLib Pos Move)
    (d : SessD) : Session Pos :=
  { id := d.id, skill_level := d.skill_level, game_mode := d.game_mode,
    engine_skill_level := d.engine_skill_level,
    engine_time_ms := d.engine_time_ms, created_at := d.created_at,
    board := { pos := lib.fromFen d.board_fen, stack := [] }, moves := d.moves }

/-- `RedisSessionManager._session_key`. -/
def _session_key (sid : String) : String := "session:" ++ sid

/-- Association-list lookup in the modelled Redis keyspace. -/
def rlookup : List (String × SessD × Nat) → String → Option (SessD × Nat)
  | [], _ => none
  | (k, v, e) :: rest, key => if k = key then some (v, e) else rlookup rest key

/-- Insert-or-replace in the modelled Redis keyspace. -/
def rset : List (String × SessD × Nat) → String → SessD → Nat → List (String × SessD × Nat)
  | [], key, v, e => [(key, v, e)]
  | (k, v0, e0) :: rest, key, v, e =>
    if k = key then (key, v, e) :: rest else (k, v0, e0) :: rset rest key v e

/-- The modelled Redis instance: entries as (key, value, absolute expiry). -/
structure RedisState where
  entries : List (String × SessD × Nat)
deriving DecidableEq

/-- Redis `GET`: a key whose expiry has passed behaves as absent. -/
def redis_get (st : RedisState) (key : String) (now : Nat) : Option SessD :=
  match rlookup st.entries key with
  | some (v, e) => if now < e then some v else none
  | none => none

/-- Redis `EXPIRE` (as used by `_refresh_ttl`): reset a live key's expiry
window to `ttl` seconds from now; no effect on absent or expired keys. -/
def redis_expire (st : RedisState) (key : String) (ttl : Nat) (now : Nat) : RedisState :=
  match rlookup st.entries key with
  | some (v, e) => if now < e then { entries := rset st.entries key v (now + ttl) } else st
  | none => st

/-- Redis `SETEX`: store a value with an expiry `ttl` seconds from now. -/
def redis_setex (st : RedisState) (key : String) (ttl : Nat) (v : SessD) (now : Nat) : RedisState :=
  { entries := rset st.entries key v (now + ttl) }

/-- Remaining TTL of a key (`None` when absent or expired), the quantity
the sliding-window property samples. -/
def redis_ttl (st : RedisState) (key : String) (now : Nat) : Option Nat :=
  match rlookup st.entries key with
  | some (_, e) => if now < e then some (e - now) else none
  | none => none

/-- `RedisSessionManager.get`: fetch and deserialize the session, then
refresh the sliding TTL; a missing key raises `KeyError`. -/
def RedisSessionManager.get {Pos Move : Type} (lib : ChessLib Pos Move)
    (st : RedisState) (sid : String) (now : Nat) :
    Except String (Session Pos × RedisState) :=
  match redis_get st (_session_key sid) now with
  | none => .error "Session not found"
  | some d =>
      .ok (_deserialize_session lib d,
           redis_expire st (_session_key sid) SESSION_TTL now)

/-- `RedisSessionManager.apply_move`: `get` (which refreshes the TTL),
run the shared `apply_move` body, and on a legal move persist the updated
session with a fresh full TTL; the illegal-move rejection returns before
the `SETEX`. -/
def RedisSessionManager.apply_move {Pos Move : Type} (lib : ChessLib Pos Move)
    (oracle : Pos → EngineOutcome Move) (engOracle : Pos → EngineMoveResponse)
    (llmCall : Feedback → String → Except String LLMObj) (api_key : Option String)
    (st : RedisState) (sid : String) (move_str : String) (now : Nat) :
    Except String (ApplyResult × RedisState) :=
  match RedisSessionManager.get lib st sid now with
  | .error e => .error e
  | .ok (sess, st1) =>
    match SessionManager.apply_move lib oracle engOracle llmCall api_key sess move_str with
    | .error e => .error e
    | .ok (res, sess2) =>
      if res.legal then
        .ok (res, redis_setex st1 (_session_key sid) SESSION_TTL
                    (_serialize_session lib sess2) now)
      else .ok (res, st1)

/-! ## Batch pipeline (`analysis_pipeline.analyze_pgn_to_feedback`) -/

/-- A parsed PGN game as handed over by the external parser: start
position, mainline moves, `Opening` header. -/
structure GameRec (Pos Move : Type) where
  startPos : Pos
  mainline : List Move
  opening : Option String := none

/-- The per-ply loop of `analyze_pgn_to_feedback` (lines 34-81): evaluate,
compare, classify, coach, accumulate; `move_no` is the 0-based ply index
and the optional `max_plies` cap breaks after the increment. -/
def pipeline_loop {Pos Move : Type} (lib : ChessLib Pos Move)
    (oracle : Pos → EngineOutcome Move)
    (llmCall : Feedback → String → Except String LLMObj) (api_key : Option String)
    (level : String) (use_llm : Bool) (llm_mode : String) (max_plies : Option Nat) :
    ChessBoard Pos → Nat → List Move → List Feedback
  | _, _, [] => []
  | b, move_no, m :: rest =>
    let side := if lib.turnWhite b.pos then "white" else "black"
    let fen_before := lib.fen b.pos
    let san := lib.san b.pos m
    let eval_before := analyze_core lib oracle b.pos
    let comparison := (compare_core lib oracle b m).1
    let b1 := ChessBoard.push lib b m
    let fen_after := lib.fen b1.pos
    let before_cp_white := eval_before.score.cp
    let after_cp_white := comparison.eval_after.score.cp
    let mover_is_white := side = "white"
    let cp_before : Option Int :=
      if mover_is_white then before_cp_white else before_cp_white.map (fun bc => -bc)
    let cp_after : Option Int :=
      if mover_is_white then after_cp_white else after_cp_white.map (fun ac => -ac)
    let cp_loss := comparison.eval_loss
    let sev := severity_from_cp_loss cp_loss
    let payload0 : Feedback :=
      { move_no := move_no / 2 + 1, side := some side, san := some san,
        uci := some (lib.uci m), fen_before := some fen_before,
        fen_after := some fen_after, cp_before := cp_before, cp_after := cp_after,
        cp_loss := some cp_loss, severity := some sev,
        best_move_san := eval_before.best_move_san, multipv := eval_before.pv }
    let enable_for_move := use_llm ∧ (llm_mode = "all" ∨ sev = "mistake" ∨ sev = "blunder")
    let coach := coach_move_with_llm llmCall api_key payload0 level enable_for_move
    let payload := { payload0 with
      basic := some coach.basic,
      extended := some coach.extended,
      source := some coach.source }
    let stop : Bool := match max_plies with
      | some mp => decide (mp ≤ move_no + 1)
      | none => false
    payload :: (if stop then []
                else pipeline_loop lib oracle llmCall api_key level use_llm llm_mode
                       max_plies b1 (move_no + 1) rest)

/-- Per-side aggregate statistics (`_side_stats`). -/
structure SideStats where
  acpl : Option Rat
  best_move_rate : Rat
  mistakes : Nat
  blunders : Nat
deriving DecidableEq

/-- `analyze_pgn_to_feedback._side_stats`: ACPL (mean absolute loss,
converted to centipawns and back), best-move rate and mistake/blunder
counts over one side's feedback records. -/
def _side_stats (moves_feedback : List Feedback) (side : String) : SideStats :=
  let side_moves := moves_feedback.filter (fun m => m.side == some side)
  let acpl : Option Rat :=
    if side_moves.isEmpty then none
    else
      let cp_losses := side_moves.map (fun m => pyAbs (pyOr m.cp_loss) * 100)
      some (cp_losses.foldl (· + ·) 0 / (side_moves.length : Rat))
  let best_rate : Rat :=
    if side_moves.isEmpty then 0
    else
      let best_count := (side_moves.filter
        (fun m => m.severity == some "best" || m.severity == some "good")).length
      (best_count : Rat) * 100 / (side_moves.length : Rat)
  { acpl := acpl.map (· / 100),
    best_move_rate := best_rate,
    mistakes := (side_moves.filter (fun m => m.severity == some "mistake")).length,
    blunders := (side_moves.filter (fun m => m.severity == some "blunder")).length }

/-- The summary dict returned by `analyze_pgn_to_feedback`. -/
structure GameSummary where
  moves : List Feedback := []
  acpl_white : Option Rat := none
  acpl_black : Option Rat := none
  best_move_rate_white : Rat := 0
  best_move_rate_black : Rat := 0
  mistakes_white : Nat := 0
  mistakes_black : Nat := 0
  blunders_white : Nat := 0
  blunders_black : Nat := 0
  openings : List String := []
  critical_positions : List Nat := []
deriving DecidableEq

/-- `analysis_pipeline.analyze_pgn_to_feedback`: parse the game (an
unparsable PGN yields `none`), run the per-ply loop from the start
position, then assemble per-side statistics and critical positions. -/
def analyze_pgn_to_feedback {Pos Move : Type} (lib : ChessLib Pos Move)
    (oracle : Pos → EngineOutcome Move)
    (llmCall : Feedback → String → Except String LLMObj) (api_key : Option String)
    (pgnParse : String → Option (GameRec Pos Move)) (pgn_content : String)
    (level : String) (max_plies : Option Nat) (use_llm : Bool) (llm_mode : String) :
    Option GameSummary :=
  match pgnParse pgn_content with
  | none => none
  | some game =>
    let moves_feedback := pipeline_loop lib oracle llmCall api_key level use_llm
      llm_mode max_plies { pos := game.startPos, stack := [] } 0 game.mainline
    let w := _side_stats moves_feedback "white"
    let b := _side_stats moves_feedback "black"
    some
      { moves := moves_feedback,
        acpl_white := w.acpl, acpl_black := b.acpl,
        best_move_rate_white := w.best_move_rate,
        best_move_rate_black := b.best_move_rate,
        mistakes_white := w.mistakes, mistakes_black := b.mistakes,
        blunders_white := w.blunders, blunders_black := b.blunders,
        openings := [game.opening.getD "Unknown"],
        critical_positions := (moves_feedback.enum.filter
          (fun p => p.2.severity == some "mistake" || p.2.severity == some "blunder")).map
          (fun p => p.1 + 1) }

/-! ## Concrete instances used to evaluate the development on closed inputs

A small executable stand-in for the external chess-rules library and the
oracles, used by the closed evaluation theorems below.  The parametric
theorems hold for every library; these instances only exercise them. -/

/-- Does the string start with a non-whitespace character? -/
def startsNonWs (s : String) : Bool :=
  match s.toList with
  | c :: _ => !c.isWhitespace
  | [] => false

/-- Unwrap an `Except` with a fallback (only used to name the components
of a computed result in closed statements). -/
def extractOk {α : Type} (dflt : α) : Except String α → α
  | .ok a => a
  | .error _ => dflt

/-- A tiny executable chess-rules library over `Nat` positions and moves:
positions count plies, even positions have white to move. -/
def natLib : ChessLib Nat Nat where
  applyMove := fun p _ => p + 1
  legal := fun _ m => m < 50
  fen := fun p => "fen " ++ toString p
  fromFen := fun _ => 0
  san := fun _ _ => "Nf3"
  parseUci := fun s => if s = "e2e4" ∨ s = "e7e5" then some 0 else none
  parseSan := fun _ s => if s = "Nf3" then some 1 else none
  uci := fun _ => "e2e4"
  turnWhite := fun p => p % 2 = 0
  isGameOver := fun _ => false

/-- A deterministic engine oracle: 30 centipawns (white view) on the start
position, 10 afterwards. -/
def toyOracle : Nat → EngineOutcome Nat := fun p =>
  .ok [{ score := some (.cp (some (if p = 0 then 30 else 10))), pv := [] }]

/-- An engine oracle that always reports an even position. -/
def toyZeroOracle : Nat → EngineOutcome Nat := fun _ =>
  .ok [{ score := some (.cp (some 0)), pv := [] }]

/-- An engine oracle whose analyse call always raises. -/
def toyErrOracle : Nat → EngineOutcome Nat := fun _ => .err "engine crashed"

/-- A best-reply oracle that always answers with a parsable move. -/
def toyEngMove : Nat → EngineMoveResponse := fun _ =>
  { move_uci := some "e7e5", move_san := some "e5", score := {} }

/-- An external text generator that always times out. -/
def toyLlmCall : Feedback → String → Except String LLMObj := fun _ _ => .error "timeout"

/-- A fresh session in the given game mode on the start position. -/
def toySession (mode : String) : Session Nat :=
  { id := "s1", game_mode := mode, board := { pos := 0, stack := [] }, moves := [] }

/-- A stored serialized session. -/
def toySessD : SessD := { id := "s1", game_mode := "training", board_fen := "startfen" }

/-- A one-entry Redis keyspace holding `toySessD` with expiry time 100. -/
def toyStore : RedisState := { entries := [(_session_key "s1", toySessD, 100)] }

/-- A PGN parser stand-in returning a fixed two-ply game. -/
def toyParse : String → Option (GameRec Nat Nat) := fun _ =>
  some { startPos := 0, mainline := [0, 0] }

/-- Fallback pair for naming components of a computed `apply_move` result. -/
def toyDflt : ApplyResult × Session Nat := (rejectResult, toySession "none")

/-! # Theorems

First, helper lemmas about the Python word machinery. -/

theorem splitWsChar_ne_nil (l : List Char) : splitWsChar l ≠ [] := by
  induction l with
  | nil => simp [splitWsChar]
  | cons c cs ih =>
    cases h : splitWsChar cs with
    | nil => exact absurd h ih
    | cons w ws =>
      simp only [splitWsChar, h]
      split <;> simp

theorem mem_splitWsChar_noWs {l w : List Char} (hw : w ∈ splitWsChar l) :
    ∀ c ∈ w, c.isWhitespace = false := by
  induction l generalizing w with
  | nil =>
    simp [splitWsChar] at hw
    subst hw; simp
  | cons c cs ih =>
    cases h : splitWsChar cs with
    | nil => exact absurd h (splitWsChar_ne_nil cs)
    | cons w0 ws0 =>
      have hw0 : w0 ∈ splitWsChar cs := by rw [h]; exact List.mem_cons_self _ _
      simp only [splitWsChar, h] at hw
      by_cases hc : c.isWhitespace = true
      · rw [if_pos hc] at hw
        rcases List.mem_cons.mp hw with hw1 | hw1
        · subst hw1; simp
        · exact ih (by rw [h]; exact hw1)
      · have hcf : c.isWhitespace = false := by simpa using hc
        rw [if_neg hc] at hw
        rcases List.mem_cons.mp hw with hw1 | hw1
        · subst hw1
          intro d hd
          rcases List.mem_cons.mp hd with hd | hd
          · subst hd; exact hcf
          · exact ih hw0 d hd
        · exact ih (by rw [h]; exact List.mem_cons_of_mem w0 hw1)

theorem splitWsChar_allWs {s : List Char} (hs : ∀ c ∈ s, c.isWhitespace = true) :
    splitWsChar s = List.replicate (s.length + 1) [] := by
  induction s with
  | nil => simp [splitWsChar]
  | cons c cs ih =>
    have hc : c.isWhitespace = true := hs c (List.mem_cons_self _ _)
    have ihs := ih (fun d hd => hs d (List.mem_cons_of_mem _ hd))
    cases h : splitWsChar cs with
    | nil => exact absurd h (splitWsChar_ne_nil cs)
    | cons w0 ws0 =>
      simp only [splitWsChar, h, if_pos hc]
      rw [h] at ihs
      simp [List.replicate_succ]
      rw [show cs.length + 1 = cs.length + 1 from rfl] at ihs
      simpa [List.replicate_succ] using ihs

theorem splitWsChar_append_allWs {s : List Char} (hs : ∀ c ∈ s, c.isWhitespace = true)
    (l : List Char) :
    splitWsChar (l ++ s) = splitWsChar l ++ List.replicate s.length [] := by
  induction l with
  | nil =>
    simp only [List.nil_append]
    rw [splitWsChar_allWs hs]
    simp [splitWsChar, List.replicate_succ]
  | cons c cs ih =>
    cases h : splitWsChar cs with
    | nil => exact absurd h (splitWsChar_ne_nil cs)
    | cons w0 ws0 =>
      rw [h] at ih
      simp only [List.cons_append, splitWsChar, List.append_eq]
      rw [ih, h]
      by_cases hc : c.isWhitespace = true
      · simp [hc]
      · simp [hc]

theorem filter_replicate_nil_words (n : Nat) :
    (List.replicate n ([] : List Char)).filter (fun w => !w.isEmpty) = [] := by
  induction n with
  | zero => rfl
  | succ k ih => simp [List.replicate_succ, ih]

theorem pyWords_append_allWs {s : List Char} (hs : ∀ c ∈ s, c.isWhitespace = true)
    (l : List Char) : pyWords (l ++ s) = pyWords l := by
  unfold pyWords
  rw [splitWsChar_append_allWs hs, List.filter_append, filter_replicate_nil_words,
    List.append_nil]

theorem pyWords_cons_ws {c : Char} (hc : c.isWhitespace = true) (l : List Char) :
    pyWords (c :: l) = pyWords l := by
  unfold pyWords
  cases h : splitWsChar l with
  | nil => exact absurd h (splitWsChar_ne_nil l)
  | cons w0 ws0 =>
    simp [splitWsChar, h, if_pos hc]

theorem pyWords_cons_ne {c : Char} (hc : c.isWhitespace = false) (l : List Char) :
    pyWords (c :: l) ≠ [] := by
  unfold pyWords
  cases h : splitWsChar l with
  | nil => exact absurd h (splitWsChar_ne_nil l)
  | cons w0 ws0 =>
    simp [splitWsChar, h, hc]

theorem pyWords_dropWhile (l : List Char) :
    pyWords (l.dropWhile Char.isWhitespace) = pyWords l := by
  induction l with
  | nil => rfl
  | cons c cs ih =>
    by_cases hc : c.isWhitespace = true
    · rw [List.dropWhile_cons_of_pos (by simpa using hc), ih, pyWords_cons_ws hc]
    · rw [List.dropWhile_cons_of_neg (by simpa using hc)]

theorem mem_takeWhile_ws {l : List Char} {x : Char}
    (hx : x ∈ l.takeWhile Char.isWhitespace) : x.isWhitespace = true := by
  induction l with
  | nil => simp [List.takeWhile] at hx
  | cons c cs ih =>
    by_cases hc : c.isWhitespace = true
    · rw [List.takeWhile_cons_of_pos (by simpa using hc)] at hx
      rcases List.mem_cons.mp hx with h | h
      · subst h; exact hc
      · exact ih h
    · rw [List.takeWhile_cons_of_neg (by simpa using hc)] at hx
      simp at hx

theorem pyWords_pyStrip (l : List Char) : pyWords (pyStrip l) = pyWords l := by
  have key : ∀ m : List Char,
      pyWords ((m.reverse.dropWhile Char.isWhitespace).reverse) = pyWords m := by
    intro m
    have hsplit : (m.reverse.dropWhile Char.isWhitespace).reverse ++
        (m.reverse.takeWhile Char.isWhitespace).reverse = m := by
      rw [← List.reverse_append, List.takeWhile_append_dropWhile, List.reverse_reverse]
    have hws : ∀ c ∈ (m.reverse.takeWhile Char.isWhitespace).reverse,
        c.isWhitespace = true :=
      fun c hc => mem_takeWhile_ws (List.mem_reverse.mp hc)
    calc pyWords ((m.reverse.dropWhile Char.isWhitespace).reverse)
        = pyWords ((m.reverse.dropWhile Char.isWhitespace).reverse ++
            (m.reverse.takeWhile Char.isWhitespace).reverse) :=
          (pyWords_append_allWs hws _).symm
      _ = pyWords m := by rw [hsplit]
  unfold pyStrip
  rw [key, pyWords_dropWhile]

theorem mem_pyWords {l w : List Char} (hw : w ∈ pyWords l) :
    w ≠ [] ∧ ∀ c ∈ w, c.isWhitespace = false := by
  unfold pyWords at hw
  have h1 := List.of_mem_filter hw
  have h2 := List.mem_of_mem_filter hw
  refine ⟨?_, mem_splitWsChar_noWs h2⟩
  intro hnil
  subst hnil
  simp at h1

theorem splitWsChar_append_noWs {w : List Char} (hw : ∀ c ∈ w, c.isWhitespace = false)
    {y : List Char} {h : List Char} {t : List (List Char)}
    (hy : splitWsChar y = h :: t) : splitWsChar (w ++ y) = (w ++ h) :: t := by
  induction w with
  | nil => simpa using hy
  | cons c cs ih =>
    have hc : c.isWhitespace = false := hw c (List.mem_cons_self _ _)
    have ih2 := ih (fun d hd => hw d (List.mem_cons_of_mem _ hd))
    simp only [List.cons_append, splitWsChar, List.append_eq]
    rw [ih2]
    simp [hc]

theorem pyWords_single {w : List Char} (h1 : w ≠ [])
    (h2 : ∀ c ∈ w, c.isWhitespace = false) : pyWords w = [w] := by
  have hs : splitWsChar (w ++ []) = (w ++ []) :: [] :=
    splitWsChar_append_noWs h2 (by simp [splitWsChar])
  rw [List.append_nil] at hs
  unfold pyWords
  rw [hs]
  simp [h1]

theorem pyWords_word_space {w : List Char} (h1 : w ≠ [])
    (h2 : ∀ c ∈ w, c.isWhitespace = false) (z : List Char) :
    pyWords (w ++ ' ' :: z) = w :: pyWords z := by
  cases hz : splitWsChar z with
  | nil => exact absurd hz (splitWsChar_ne_nil z)
  | cons h0 t0 =>
    have hsp : splitWsChar (' ' :: z) = [] :: h0 :: t0 := by
      simp [splitWsChar, hz]
    have := splitWsChar_append_noWs h2 hsp
    unfold pyWords
    rw [this, hz]
    simp [h1]

theorem pyWords_intercalate {ws : List (List Char)}
    (h : ∀ w ∈ ws, w ≠ [] ∧ ∀ c ∈ w, c.isWhitespace = false) :
    pyWords (List.intercalate [' '] ws) = ws := by
  induction ws with
  | nil => simp [List.intercalate, pyWords, splitWsChar]
  | cons w rest ih =>
    obtain ⟨hw1, hw2⟩ := h w (List.mem_cons_self _ _)
    cases rest with
    | nil =>
      rw [show List.intercalate [' '] [w] = w by simp [List.intercalate]]
      exact pyWords_single hw1 hw2
    | cons w2 rest2 =>
      have hint : List.intercalate [' '] (w :: w2 :: rest2) =
          w ++ ' ' :: List.intercalate [' '] (w2 :: rest2) := by
        simp [List.intercalate, List.intersperse]
      rw [hint, pyWords_word_space hw1 hw2]
      rw [ih (fun v hv => h v (List.mem_cons_of_mem _ hv))]

theorem pyWords_append_left_ne {l : List Char} (h : pyWords l ≠ []) (y : List Char) :
    pyWords (l ++ y) ≠ [] := by
  induction l with
  | nil => exact absurd rfl h
  | cons c cs ih =>
    by_cases hc : c.isWhitespace = true
    · rw [pyWords_cons_ws hc] at h
      rw [List.cons_append, pyWords_cons_ws hc]
      exact ih h
    · rw [List.cons_append]
      exact pyWords_cons_ne (by simpa using hc) _

theorem mk_ne_empty {l : List Char} (h : l ≠ []) : String.mk l ≠ "" := by
  intro he
  apply h
  have := congrArg String.toList he
  simpa using this

theorem toList_mk (l : List Char) : (String.mk l).toList = l := rfl

theorem intercalate_cons_ne_nil {w : List Char} (h : w ≠ []) (t : List (List Char)) :
    List.intercalate [' '] (w :: t) ≠ [] := by
  cases t with
  | nil => simpa [List.intercalate]
  | cons w2 t2 =>
    have : List.intercalate [' '] (w :: w2 :: t2) =
        w ++ ' ' :: List.intercalate [' '] (w2 :: t2) := by
      simp [List.intercalate, List.intersperse]
    rw [this]
    simp [h]

theorem truncate_words_le (s : String) (n : Nat) :
    pyWordCount (_truncate_words s n) ≤ n := by
  unfold _truncate_words pyWordCount
  by_cases h : (pyWords s.toList).length ≤ n
  · simp only [h, if_true, toList_mk]
    rw [pyWords_pyStrip]
    exact h
  · simp only [h, if_false, toList_mk]
    rw [pyWords_intercalate (fun w hw => mem_pyWords (List.mem_of_mem_take hw))]
    simp

theorem truncate_words_ne (s : String) (n : Nat)
    (hw : pyWords s.toList ≠ []) (hn : 0 < n) : _truncate_words s n ≠ "" := by
  unfold _truncate_words
  by_cases h : (pyWords s.toList).length ≤ n
  · simp only [h, if_true]
    apply mk_ne_empty
    intro hstrip
    apply hw
    rw [← pyWords_pyStrip s.toList, hstrip]
    rfl
  · simp only [h, if_false]
    apply mk_ne_empty
    cases hws : pyWords s.toList with
    | nil => exact absurd hws hw
    | cons w rest =>
      have hwmem : w ≠ [] := (mem_pyWords (by rw [hws]; exact List.mem_cons_self _ _)).1
      cases n with
      | zero => exact absurd hn (by simp)
      | succ k =>
        rw [List.take_succ_cons]
        exact intercalate_cons_ne_nil hwmem _

theorem toList_append (a b : String) : (a ++ b).toList = a.toList ++ b.toList :=
  String.data_append a b

theorem startsNonWs_pyWords_ne {s : String} (h : startsNonWs s = true) :
    pyWords s.toList ≠ [] := by
  unfold startsNonWs at h
  revert h
  cases hs : s.toList with
  | nil => intro h; simp at h
  | cons c cs =>
    intro h
    exact pyWords_cons_ne (by simpa using h) cs

theorem rule_basic_short (move : Feedback) :
    rule_basic move ≠ "" ∧ pyWordCount (rule_basic move) ≤ 15 := by
  have key : ∀ t : String, pyWords t.toList ≠ [] →
      _truncate_words t 15 ≠ "" ∧ pyWordCount (_truncate_words t 15) ≤ 15 :=
    fun t ht => ⟨truncate_words_ne t 15 ht (by norm_num), truncate_words_le t 15⟩
  have hsolid : pyWords ("Solid move. Keep building your plan." : String).toList ≠ [] :=
    startsNonWs_pyWords_ne (by decide)
  have hmissed :
      pyWords ("Missed stronger option. Improve piece activity." : String).toList ≠ [] :=
    startsNonWs_pyWords_ne (by decide)
  have hbetter : ∀ b : String,
      pyWords (("Better was " ++ b ++ ". Consider the threats." : String)).toList ≠ [] := by
    intro b
    rw [toList_append, toList_append, List.append_assoc]
    exact pyWords_append_left_ne (startsNonWs_pyWords_ne (by decide)) _
  simp only [rule_basic]
  by_cases h1 : severity_from_cp_loss (pyOr move.cp_loss) = "best" ∨
      severity_from_cp_loss (pyOr move.cp_loss) = "good"
  · rw [if_pos h1]
    exact key _ hsolid
  · rw [if_neg h1]
    split
    · split
      · exact key _ hmissed
      · exact key _ (hbetter _)
    · exact key _ hmissed

/-- C8: for every move payload, with external text disabled (`use_llm` false)
the coaching resolver returns provenance `"rules"` with the non-empty
rule-based basic text of at most 15 words, without raising; and with
external text enabled but the credential absent the result is identical
(same rule-based outcome, no exception — the resolver is a total function). -/
theorem coach_resolver_rules_fallback
    (llmCall : Feedback → String → Except String LLMObj) (api_key : Option String)
    (move : Feedback) (level : String) :
    (coach_move_with_llm llmCall api_key move level false).source = "rules" ∧
    (coach_move_with_llm llmCall api_key move level false).basic = rule_basic move ∧
    rule_basic move ≠ "" ∧
    pyWordCount (rule_basic move) ≤ 15 ∧
    coach_move_with_llm llmCall none move level true =
      coach_move_with_llm llmCall api_key move level false := by
  obtain ⟨h1, h2⟩ := rule_basic_short move
  refine ⟨rfl, rfl, h1, h2, rfl⟩

/-- C2: `severity_from_cp_loss` depends only on the absolute loss, is
monotone non-decreasing along best < good < inaccuracy < mistake < blunder
as the absolute loss grows, classifies zero loss as `"best"`, and its
cutoffs (0.05, 0.20, 0.50, 1.50 pawns) lie within the spec's stated ranges
(best 0.05-0.15, good 0.20-0.30, inaccuracy 0.50-0.60, mistake 1.50). -/
theorem severity_monotone_classification :
    (∀ x : Rat, severity_from_cp_loss x = severity_from_cp_loss |x|) ∧
    (∀ x y : Rat, |x| ≤ |y| →
      sevRank (severity_from_cp_loss x) ≤ sevRank (severity_from_cp_loss y)) ∧
    severity_from_cp_loss 0 = "best" ∧
    ((5 : Rat) / 100 ≤ bestCutoff ∧ bestCutoff ≤ 15 / 100) ∧
    ((20 : Rat) / 100 ≤ goodCutoff ∧ goodCutoff ≤ 30 / 100) ∧
    ((50 : Rat) / 100 ≤ inaccuracyCutoff ∧ inaccuracyCutoff ≤ 60 / 100) ∧
    mistakeCutoff = 150 / 100 := by
  have habs : ∀ x : Rat, pyAbs x = |x| := by
    intro x
    unfold pyAbs
    by_cases hx : x < 0
    · rw [if_pos hx, abs_of_neg hx]
    · rw [if_neg hx, abs_of_nonneg (le_of_not_lt hx)]
  refine ⟨?_, ?_, ?_, ?_, ?_, ?_, rfl⟩
  · intro x
    simp [severity_from_cp_loss, habs, abs_abs]
  · intro x y hxy
    simp only [severity_from_cp_loss, habs]
    split_ifs <;> first
      | decide
      | (exfalso; linarith)
  · have h0 : pyAbs 0 ≤ bestCutoff := by
      rw [habs, abs_zero]
      norm_num [bestCutoff]
    simp [severity_from_cp_loss, h0]
  · exact ⟨le_refl _, by norm_num [bestCutoff]⟩
  · exact ⟨le_refl _, by norm_num [goodCutoff]⟩
  · exact ⟨le_refl _, by norm_num [inaccuracyCutoff]⟩

/-- Witness for C2: the monotonicity implication applied at the concrete
losses 0.1 and -2. -/
theorem severity_monotone_classification_witness :
    |((1 : Rat) / 10)| ≤ |(-2 : Rat)| ∧
    sevRank (severity_from_cp_loss ((1 : Rat) / 10)) ≤
      sevRank (severity_from_cp_loss (-2 : Rat)) := by
  have h : |((1 : Rat) / 10)| ≤ |(-2 : Rat)| := by
    rw [abs_of_nonneg (by norm_num : ((0:Rat)) ≤ 1 / 10),
      abs_of_nonpos (by norm_num : ((-2:Rat)) ≤ 0)]
    norm_num
  exact ⟨h, severity_monotone_classification.2.1 ((1 : Rat) / 10) (-2) h⟩

/-- C5 (counterexample): evaluating a position on an analyzer whose engine
handle was never started does not return an empty-lines evaluation — it
propagates a `RuntimeError` to the caller. -/
theorem analyze_position_uninitialized_raises :
    analyze_position natLib none toyOracle 0 = .error engineNotInitializedMsg := rfl

/-- C5 (amended): when the engine handle is live, any engine failure during
analysis (crash, malformed output, unparsable move) is caught and returned
as an evaluation with an empty line list and the error attached, never
propagated; but a handle that failed to start or was never initialized
instead raises `RuntimeError` out of `analyze_position`. -/
theorem analyze_position_failure_handling {Pos Move : Type} (lib : ChessLib Pos Move)
    (oracle : Pos → EngineOutcome Move) (pos : Pos) (msg : String)
    (h : oracle pos = .err msg) :
    analyze_position lib (some ()) oracle pos =
      .ok { score := { cp := some 0 }, best_move := none, best_move_san := none,
            pv := [], nodes := 0, time := 0, error := some msg } ∧
    analyze_position lib none oracle pos = .error engineNotInitializedMsg := by
  constructor
  · simp [analyze_position, analyze_core, h]
  · rfl

/-- Witness for C5's amended theorem: a concrete crashing engine. -/
theorem analyze_position_failure_handling_witness :
    toyErrOracle 0 = .err "engine crashed" ∧
    analyze_position natLib (some ()) toyErrOracle 0 =
      .ok { score := { cp := some 0 }, best_move := none, best_move_san := none,
            pv := [], nodes := 0, time := 0, error := some "engine crashed" } :=
  ⟨rfl, (analyze_position_failure_handling natLib toyErrOracle 0 "engine crashed" rfl).1⟩

/-- C10: when `analyze_position` catches an engine failure it returns a
score field equal to the zero-centipawn score alongside the empty line
list, which is exactly the score field of a successful evaluation of a
genuinely equal (0 cp) position — a caller looking only at `score` cannot
tell the two apart. -/
theorem analyze_error_score_is_zero {Pos Move : Type} (lib : ChessLib Pos Move)
    (oracle oracle0 : Pos → EngineOutcome Move) (pos pos0 : Pos) (msg : String)
    (info : EngineInfo Move)
    (h : oracle pos = .err msg)
    (h0 : oracle0 pos0 = .ok [info]) (hs : info.score = some (.cp (some 0))) :
    (analyze_core lib oracle pos).score = { cp := some 0, mate := none } ∧
    (analyze_core lib oracle pos).pv = [] ∧
    (analyze_core lib oracle pos).error = some msg ∧
    (analyze_core lib oracle pos).score = (analyze_core lib oracle0 pos0).score := by
  refine ⟨?_, ?_, ?_, ?_⟩ <;>
    simp [analyze_core, h, h0, scoreDict, hs]

/-- Witness for C10: the crashing oracle against a concrete equal-position
success. -/
theorem analyze_error_score_is_zero_witness :
    (analyze_core natLib toyErrOracle 0).score = { cp := some 0, mate := none } ∧
    (analyze_core natLib toyErrOracle 0).score = (analyze_core natLib toyZeroOracle 0).score :=
  ⟨(analyze_error_score_is_zero natLib toyErrOracle toyZeroOracle 0 0 "engine crashed"
      { score := some (.cp (some 0)), pv := [] } rfl rfl rfl).1,
   (analyze_error_score_is_zero natLib toyErrOracle toyZeroOracle 0 0 "engine crashed"
      { score := some (.cp (some 0)), pv := [] } rfl rfl rfl).2.2.2⟩

theorem pop_push {Pos Move : Type} (lib : ChessLib Pos Move)
    (b : ChessBoard Pos) (m : Move) :
    (ChessBoard.push lib b m).pop = b := by
  simp [ChessBoard.push, ChessBoard.pop]

theorem compare_core_snd {Pos Move : Type} (lib : ChessLib Pos Move)
    (oracle : Pos → EngineOutcome Move) (b : ChessBoard Pos) (m : Move) :
    (compare_core lib oracle b m).2 = b := by
  simp [compare_core, pop_push]

/-- C3: `compare_move` never mutates the caller's board — the board
returned to the caller (the move is pushed and then popped) is the original
board, so in particular its FEN encoding is unchanged. -/
theorem compare_move_board_unchanged {Pos Move : Type} (lib : ChessLib Pos Move)
    (engine : Option Unit) (oracle : Pos → EngineOutcome Move)
    (b : ChessBoard Pos) (m : Move) (r : CompareResult) (b2 : ChessBoard Pos)
    (h : compare_move lib engine oracle b m = .ok (r, b2)) :
    b2 = b ∧ lib.fen b2.pos = lib.fen b.pos := by
  cases engine with
  | none => simp [compare_move] at h
  | some u =>
    have hpair : (compare_core lib oracle b m).1 = r ∧ (compare_core lib oracle b m).2 = b2 := by
      have h2 : (Except.ok (compare_core lib oracle b m) : Except String (CompareResult × ChessBoard Pos)) = .ok (r, b2) := h
      have h3 := Except.ok.inj h2
      exact ⟨congrArg Prod.fst h3, congrArg Prod.snd h3⟩
    have hb : b2 = b := hpair.2 ▸ (compare_core_snd lib oracle b m)
    exact ⟨hb, by rw [hb]⟩

/-- Witness for C3: a concrete comparison on the toy library leaves the
concrete board untouched. -/
theorem compare_move_board_unchanged_witness :
    extractOk ((compare_core natLib toyOracle ⟨5, []⟩ 0).1, ⟨99, []⟩)
        (compare_move natLib (some ()) toyOracle ⟨5, []⟩ 0) =
      ((compare_core natLib toyOracle ⟨5, []⟩ 0).1, (⟨5, []⟩ : ChessBoard Nat)) := by
  have h := compare_move_board_unchanged natLib (some ()) toyOracle ⟨5, []⟩ 0
    (compare_core natLib toyOracle ⟨5, []⟩ 0).1
    (compare_core natLib toyOracle ⟨5, []⟩ 0).2 rfl
  calc extractOk ((compare_core natLib toyOracle ⟨5, []⟩ 0).1, ⟨99, []⟩)
        (compare_move natLib (some ()) toyOracle ⟨5, []⟩ 0)
      = ((compare_core natLib toyOracle ⟨5, []⟩ 0).1,
         (compare_core natLib toyOracle ⟨5, []⟩ 0).2) := rfl
    _ = ((compare_core natLib toyOracle ⟨5, []⟩ 0).1, ⟨5, []⟩) := by rw [h.1]

/-- C1: for a board and legal move whose before- and after-evaluations both
report numeric centipawn scores (white-relative `bc` and `ac`),
`compare_move` computes the loss from the mover's perspective: the
white-relative scores are negated when the mover is black
(`lib.turnWhite` false), the loss in pawns equals (mover-perspective
before − mover-perspective after) / 100, and the loss is positive exactly
when the mover-perspective evaluation dropped, i.e. the move was worse for
the side that played it. -/
theorem compare_move_mover_loss {Pos Move : Type} (lib : ChessLib Pos Move)
    (oracle : Pos → EngineOutcome Move) (b : ChessBoard Pos) (mv : Move)
    (bc ac : Int) (r : CompareResult) (b2 : ChessBoard Pos)
    (hleg : lib.legal b.pos mv = true)
    (hb : (analyze_core lib oracle b.pos).score.cp = some bc)
    (ha : (analyze_core lib oracle (lib.applyMove b.pos mv)).score.cp = some ac)
    (hok : compare_move lib (some ()) oracle b mv = .ok (r, b2)) :
    r.eval_loss =
      (((if lib.turnWhite b.pos then bc else -bc) -
        (if lib.turnWhite b.pos then ac else -ac) : Int) : Rat) / 100 ∧
    (0 < r.eval_loss ↔
      (if lib.turnWhite b.pos then ac else -ac) <
        (if lib.turnWhite b.pos then bc else -bc)) := by
  have hr : r = (compare_core lib oracle b mv).1 := by
    have h2 : (Except.ok (compare_core lib oracle b mv) : Except String (CompareResult × ChessBoard Pos)) = .ok (r, b2) := hok
    exact (congrArg Prod.fst (Except.ok.inj h2)).symm
  subst hr
  have h100 : (0 : Rat) < 100 := by norm_num
  simp only [compare_core, ChessBoard.push, ChessBoard.pop, hb, ha]
  by_cases hw : lib.turnWhite b.pos
  · simp only [hw, if_true]
    by_cases hd : bc - ac = 0
    · rw [if_pos hd, hd]
      constructor
      · norm_num
      · constructor
        · intro h0
          exact absurd h0 (lt_irrefl 0)
        · intro h0
          exfalso
          omega
    · rw [if_neg hd]
      refine ⟨rfl, ?_⟩
      rw [lt_div_iff h100, zero_mul, Int.cast_pos, sub_pos]
  · simp only [hw, if_false, Bool.not_eq_true] at *
    simp only [hw, Bool.false_eq_true, if_false]
    by_cases hd : -bc - -ac = 0
    · rw [if_pos hd, hd]
      constructor
      · norm_num
      · constructor
        · intro h0
          exact absurd h0 (lt_irrefl 0)
        · intro h0
          exfalso
          omega
    · rw [if_neg hd]
      refine ⟨rfl, ?_⟩
      rw [lt_div_iff h100, zero_mul, Int.cast_pos, sub_pos]

/-- Witness for C1: a white move losing 20 centipawns on the toy library
has loss 0.2 pawns, and the loss is positive. -/
theorem compare_move_mover_loss_witness :
    (compare_core natLib toyOracle ⟨0, []⟩ 0).1.eval_loss =
      (((30 : Int) - 10 : Int) : Rat) / 100 ∧
    (0 < (compare_core natLib toyOracle ⟨0, []⟩ 0).1.eval_loss ↔ (10 : Int) < 30) := by
  have h := compare_move_mover_loss natLib toyOracle ⟨0, []⟩ 0 30 10
    (compare_core natLib toyOracle ⟨0, []⟩ 0).1
    (compare_core natLib toyOracle ⟨0, []⟩ 0).2 rfl rfl rfl rfl
  have hw : natLib.turnWhite 0 = true := by decide
  simpa [hw] using h

theorem rlookup_rset (l : List (String × SessD × Nat)) (k : String) (v : SessD) (e : Nat) :
    rlookup (rset l k v e) k = some (v, e) := by
  induction l with
  | nil => simp [rset, rlookup]
  | cons p rest ih =>
    obtain ⟨k0, v0, e0⟩ := p
    by_cases hk : k0 = k
    · simp [rset, hk, rlookup]
    · simp [rset, hk, rlookup, ih]

theorem apply_move_rejected_helper {Pos Move : Type} (lib : ChessLib Pos Move)
    (oracle : Pos → EngineOutcome Move) (engOracle : Pos → EngineMoveResponse)
    (llmCall : Feedback → String → Except String LLMObj) (api_key : Option String)
    (sess : Session Pos) (move_str : String)
    (h : ∀ m s u, _parse_move lib sess.board.pos move_str = some (m, s, u) →
      lib.legal sess.board.pos m = false) :
    SessionManager.apply_move lib oracle engOracle llmCall api_key sess move_str =
      .ok (rejectResult, sess) := by
  cases hp : _parse_move lib sess.board.pos move_str with
  | none => simp [SessionManager.apply_move, hp]
  | some t =>
    obtain ⟨m, s, u⟩ := t
    have hleg := h m s u hp
    simp [SessionManager.apply_move, hp, hleg]

/-- C4: a move string that fails to parse or is not legal in the session's
current position makes `apply_move` return the rejection
(`legal = false` with the reason) rather than raising, and leaves the
session unchanged — the in-memory manager returns the very same session,
and the Redis-backed manager leaves the stored session record's value
(hence its move history and position FEN) untouched, only refreshing the
expiry. -/
theorem apply_move_illegal_rejects {Pos Move : Type} (lib : ChessLib Pos Move)
    (oracle : Pos → EngineOutcome Move) (engOracle : Pos → EngineMoveResponse)
    (llmCall : Feedback → String → Except String LLMObj) (api_key : Option String)
    (sess : Session Pos) (st : RedisState) (sid : String) (now : Nat)
    (d : SessD) (exp : Nat) (move_str : String) :
    ((∀ m s u, _parse_move lib sess.board.pos move_str = some (m, s, u) →
        lib.legal sess.board.pos m = false) →
      SessionManager.apply_move lib oracle engOracle llmCall api_key sess move_str =
        .ok (rejectResult, sess) ∧
      rejectResult.legal = false ∧ rejectResult.error = some "Illegal move") ∧
    (rlookup st.entries (_session_key sid) = some (d, exp) → now < exp →
     (∀ m s u, _parse_move lib (lib.fromFen d.board_fen) move_str = some (m, s, u) →
        lib.legal (lib.fromFen d.board_fen) m = false) →
     RedisSessionManager.apply_move lib oracle engOracle llmCall api_key st sid move_str now =
       .ok (rejectResult, redis_expire st (_session_key sid) SESSION_TTL now) ∧
     rlookup (redis_expire st (_session_key sid) SESSION_TTL now).entries
       (_session_key sid) = some (d, now + SESSION_TTL)) := by
  constructor
  · intro h
    exact ⟨apply_move_rejected_helper lib oracle engOracle llmCall api_key sess move_str h,
      rfl, rfl⟩
  · intro hlk halive hill
    have hget : RedisSessionManager.get lib st sid now =
        .ok (_deserialize_session lib d, redis_expire st (_session_key sid) SESSION_TTL now) := by
      simp [RedisSessionManager.get, redis_get, hlk, halive]
    have hbody : SessionManager.apply_move lib oracle engOracle llmCall api_key
        (_deserialize_session lib d) move_str = .ok (rejectResult, _deserialize_session lib d) :=
      apply_move_rejected_helper lib oracle engOracle llmCall api_key _ move_str hill
    constructor
    · simp [RedisSessionManager.apply_move, hget, hbody, rejectResult]
    · simp [redis_expire, hlk, halive, rlookup_rset]

/-- Witness for C4: the unparsable move string `"bad"` on a concrete
session and a concrete stored session. -/
theorem apply_move_illegal_rejects_witness :
    (SessionManager.apply_move natLib toyOracle toyEngMove toyLlmCall none
        (toySession "training") "bad" = .ok (rejectResult, toySession "training")) ∧
    (RedisSessionManager.apply_move natLib toyOracle toyEngMove toyLlmCall none
        toyStore "s1" "bad" 50 =
      .ok (rejectResult, redis_expire toyStore (_session_key "s1") SESSION_TTL 50)) := by
  have h := apply_move_illegal_rejects natLib toyOracle toyEngMove toyLlmCall none
    (toySession "training") toyStore "s1" 50 toySessD 100 "bad"
  have hparse : ∀ m s u, _parse_move natLib (toySession "training").board.pos "bad" =
      some (m, s, u) → natLib.legal (toySession "training").board.pos m = false := by
    intro m s u hp
    have hnone : _parse_move natLib (toySession "training").board.pos "bad" = none := by decide
    rw [hnone] at hp
    exact absurd hp (by simp)
  have hparse2 : ∀ m s u, _parse_move natLib (natLib.fromFen toySessD.board_fen) "bad" =
      some (m, s, u) → natLib.legal (natLib.fromFen toySessD.board_fen) m = false := by
    intro m s u hp
    have hnone : _parse_move natLib (natLib.fromFen toySessD.board_fen) "bad" = none := by decide
    rw [hnone] at hp
    exact absurd hp (by simp)
  exact ⟨(h.1 hparse).1, (h.2 rfl (by norm_num) hparse2).1⟩

/-- C6: on a legal human move, a `training` session appends exactly the one
human `MoveFeedback` record (flagged as not engine-authored) and returns no
engine move; a `play` session whose position after the human move is not
game over (with the engine supplying a parsable reply) appends exactly one
additional engine-authored record, distinctly flagged `is_engine_move`,
after the human record, and returns the engine move. -/
theorem apply_move_game_modes {Pos Move : Type} (lib : ChessLib Pos Move)
    (oracle : Pos → EngineOutcome Move) (engOracle : Pos → EngineMoveResponse)
    (llmCall : Feedback → String → Except String LLMObj) (api_key : Option String)
    (sess : Session Pos) (move_str : String) (m em : Move) (sanv uciv u : String)
    (res : ApplyResult) (sess2 : Session Pos)
    (hp : _parse_move lib sess.board.pos move_str = some (m, sanv, uciv))
    (hl : lib.legal sess.board.pos m = true)
    (hu : (engOracle (lib.applyMove sess.board.pos m)).move_uci = some u)
    (hne : u ≠ "") (hpu : lib.parseUci u = some em)
    (hok : SessionManager.apply_move lib oracle engOracle llmCall api_key sess move_str =
      .ok (res, sess2)) :
    (sess.game_mode = "training" →
      res.legal = true ∧ res.engine_move = none ∧
      res.human_feedback.map Feedback.is_engine_move = some false ∧
      sess2.moves = sess.moves ++ res.human_feedback.toList ∧
      sess2.moves.length = sess.moves.length + 1) ∧
    (sess.game_mode = "play" →
     lib.isGameOver (lib.applyMove sess.board.pos m) = false →
      res.legal = true ∧ res.engine_move.isSome = true ∧
      res.human_feedback.map Feedback.is_engine_move = some false ∧
      sess2.moves.dropLast = sess.moves ++ res.human_feedback.toList ∧
      sess2.moves.getLast?.map Feedback.is_engine_move = some true ∧
      sess2.moves.length = sess.moves.length + 2) := by
  simp only [SessionManager.apply_move, hp] at hok
  rw [if_neg (by simp [hl])] at hok
  constructor
  · intro hm
    rw [hm] at hok
    rw [if_neg (by simp)] at hok
    have hinj := Except.ok.inj hok
    have hres := (congrArg Prod.fst hinj).symm
    have hsess := (congrArg Prod.snd hinj).symm
    subst hres
    subst hsess
    refine ⟨rfl, rfl, rfl, ?_, by simp⟩
    simp
  · intro hm hgo
    rw [hm] at hok
    rw [if_pos ⟨rfl, by simpa [ChessBoard.push] using hgo⟩] at hok
    simp only [_get_engine_move, ChessBoard.push] at hok
    simp only [hu] at hok
    rw [if_neg hne] at hok
    simp only [hpu] at hok
    have hinj := Except.ok.inj hok
    have hres := (congrArg Prod.fst hinj).symm
    have hsess := (congrArg Prod.snd hinj).symm
    subst hres
    subst hsess
    refine ⟨rfl, rfl, rfl, ?_, ?_, by simp⟩
    · simp [List.dropLast_concat]
    · simp [List.getLast?_concat]

/-- Witness for C6: one applied move on concrete training and play sessions. -/
theorem apply_move_game_modes_witness :
    ((extractOk toyDflt (SessionManager.apply_move natLib toyOracle toyEngMove toyLlmCall none
        (toySession "training") "e2e4")).1.engine_move = none ∧
     (extractOk toyDflt (SessionManager.apply_move natLib toyOracle toyEngMove toyLlmCall none
        (toySession "training") "e2e4")).2.moves.length =
       (toySession "training").moves.length + 1) ∧
    ((extractOk toyDflt (SessionManager.apply_move natLib toyOracle toyEngMove toyLlmCall none
        (toySession "play") "e2e4")).1.engine_move.isSome = true ∧
     (extractOk toyDflt (SessionManager.apply_move natLib toyOracle toyEngMove toyLlmCall none
        (toySession "play") "e2e4")).2.moves.getLast?.map Feedback.is_engine_move =
       some true ∧
     (extractOk toyDflt (SessionManager.apply_move natLib toyOracle toyEngMove toyLlmCall none
        (toySession "play") "e2e4")).2.moves.length =
       (toySession "play").moves.length + 2) := by
  have ht := apply_move_game_modes natLib toyOracle toyEngMove toyLlmCall none
    (toySession "training") "e2e4" 0 0 "Nf3" "e2e4" "e7e5"
    (extractOk toyDflt (SessionManager.apply_move natLib toyOracle toyEngMove toyLlmCall none
      (toySession "training") "e2e4")).1
    (extractOk toyDflt (SessionManager.apply_move natLib toyOracle toyEngMove toyLlmCall none
      (toySession "training") "e2e4")).2
    rfl rfl rfl (by decide) rfl rfl
  have hpl := apply_move_game_modes natLib toyOracle toyEngMove toyLlmCall none
    (toySession "play") "e2e4" 0 0 "Nf3" "e2e4" "e7e5"
    (extractOk toyDflt (SessionManager.apply_move natLib toyOracle toyEngMove toyLlmCall none
      (toySession "play") "e2e4")).1
    (extractOk toyDflt (SessionManager.apply_move natLib toyOracle toyEngMove toyLlmCall none
      (toySession "play") "e2e4")).2
    rfl rfl rfl (by decide) rfl rfl
  obtain ⟨h1, h2, h3, h4, h5⟩ := ht.1 rfl
  obtain ⟨g1, g2, g3, g4, g5, g6⟩ := hpl.2 rfl rfl
  exact ⟨⟨h2, h5⟩, ⟨g2, g5, g6⟩⟩

theorem pipeline_loop_move_no {Pos Move : Type} (lib : ChessLib Pos Move)
    (oracle : Pos → EngineOutcome Move)
    (llmCall : Feedback → String → Except String LLMObj) (api_key : Option String)
    (level : String) (use_llm : Bool) (llm_mode : String) (max_plies : Option Nat) :
    ∀ (ms : List Move) (b : ChessBoard Pos) (n i : Nat) (fb : Feedback),
      (pipeline_loop lib oracle llmCall api_key level use_llm llm_mode max_plies
        b n ms).get? i = some fb →
      fb.move_no = (n + i) / 2 + 1 := by
  intro ms
  induction ms with
  | nil =>
    intro b n i fb h
    simp [pipeline_loop] at h
  | cons m rest ih =>
    intro b n i fb h
    simp only [pipeline_loop] at h
    cases i with
    | zero =>
      simp only [List.get?] at h
      have := Option.some.inj h
      rw [← this]
      simp
    | succ j =>
      simp only [List.get?] at h
      split at h
      · simp at h
      · have := ih (ChessBoard.push lib b m) (n + 1) j fb h
        rw [this]
        congr 1
        omega

/-- C9 (counterexample): in a fresh training session, after white's and
black's first plies the two history records carry move numbers 1 and 2 —
the second ply (K = 1, 0-indexed) does not carry K div 2 + 1 = 1, so the
session path does not share the move number between the two sides'
half-moves. -/
theorem session_move_no_counterexample :
    (match (SessionManager.apply_move natLib toyOracle toyEngMove toyLlmCall none
        (toySession "training") "e2e4").bind
        (fun p => SessionManager.apply_move natLib toyOracle toyEngMove toyLlmCall none
          p.2 "e2e4") with
      | .ok p => p.2.moves.map Feedback.move_no
      | .error _ => []) = [1, 2] ∧ (2 : Nat) ≠ 1 / 2 + 1 :=
  ⟨rfl, by decide⟩

/-- C9 (amended): the two paths number moves differently.  In the batch
pipeline every produced record carries the 1-based full-move number
`ply div 2 + 1`, shared between the two sides' half-moves; in the session
`apply_move` path the persisted human record instead carries the history
length + 1, a per-record counter, so in a training session the two sides'
half-moves get distinct numbers. -/
theorem move_numbering_paths {Pos Move : Type} (lib : ChessLib Pos Move)
    (oracle : Pos → EngineOutcome Move) (engOracle : Pos → EngineMoveResponse)
    (llmCall : Feedback → String → Except String LLMObj) (api_key : Option String)
    (pgnParse : String → Option (GameRec Pos Move)) (pgn_content : String)
    (level : String) (max_plies : Option Nat) (use_llm : Bool) (llm_mode : String)
    (sess : Session Pos) (move_str : String) (m : Move) (sanv uciv : String)
    (summary : GameSummary) (i : Nat) (fb : Feedback)
    (res : ApplyResult) (sess2 : Session Pos)
    (hsum : analyze_pgn_to_feedback lib oracle llmCall api_key pgnParse pgn_content
      level max_plies use_llm llm_mode = some summary)
    (hfb : summary.moves.get? i = some fb)
    (hp : _parse_move lib sess.board.pos move_str = some (m, sanv, uciv))
    (hl : lib.legal sess.board.pos m = true)
    (hok : SessionManager.apply_move lib oracle engOracle llmCall api_key sess move_str =
      .ok (res, sess2)) :
    fb.move_no = i / 2 + 1 ∧
    res.human_feedback.map Feedback.move_no = some (sess.moves.length + 1) := by
  constructor
  · cases hpg : pgnParse pgn_content with
    | none => rw [analyze_pgn_to_feedback, hpg] at hsum; simp at hsum
    | some game =>
      rw [analyze_pgn_to_feedback, hpg] at hsum
      have hsummary := Option.some.inj hsum
      have hmoves : summary.moves = pipeline_loop lib oracle llmCall api_key level
          use_llm llm_mode max_plies { pos := game.startPos, stack := [] } 0
          game.mainline := by
        rw [← hsummary]
      rw [hmoves] at hfb
      have := pipeline_loop_move_no lib oracle llmCall api_key level use_llm llm_mode
        max_plies game.mainline { pos := game.startPos, stack := [] } 0 i fb hfb
      simpa using this
  · simp only [SessionManager.apply_move, hp] at hok
    rw [if_neg (by simp [hl])] at hok
    split at hok
    · split at hok
      · exact absurd hok (by simp)
      · split at hok
        · have hres := (congrArg Prod.fst (Except.ok.inj hok)).symm
          subst hres
          rfl
        · have hres := (congrArg Prod.fst (Except.ok.inj hok)).symm
          subst hres
          rfl
    · have hres := (congrArg Prod.fst (Except.ok.inj hok)).symm
      subst hres
      rfl

/-- Witness for C9's amended theorem: the toy two-ply game and the toy
training session. -/
theorem move_numbering_paths_witness :
    ((((analyze_pgn_to_feedback natLib toyOracle toyLlmCall none toyParse "x" "intermediate"
        none false "all").getD {}).moves.get? 1).getD {}).move_no = 1 / 2 + 1 ∧
    (extractOk toyDflt (SessionManager.apply_move natLib toyOracle toyEngMove toyLlmCall none
      (toySession "training") "e2e4")).1.human_feedback.map Feedback.move_no =
      some ((toySession "training").moves.length + 1) := by
  have h := move_numbering_paths natLib toyOracle toyEngMove toyLlmCall none toyParse "x"
    "intermediate" none false "all" (toySession "training") "e2e4" 0 "Nf3" "e2e4"
    ((analyze_pgn_to_feedback natLib toyOracle toyLlmCall none toyParse "x" "intermediate"
      none false "all").getD {})
    1
    ((((analyze_pgn_to_feedback natLib toyOracle toyLlmCall none toyParse "x" "intermediate"
      none false "all").getD {}).moves.get? 1).getD {})
    (extractOk toyDflt (SessionManager.apply_move natLib toyOracle toyEngMove toyLlmCall none
      (toySession "training") "e2e4")).1
    (extractOk toyDflt (SessionManager.apply_move natLib toyOracle toyEngMove toyLlmCall none
      (toySession "training") "e2e4")).2
    rfl rfl rfl rfl rfl
  exact h

/-- C7: with sessions in the shared Redis-backed store, a successful `get`
and a successful `apply_move` both reset the session's remaining expiry
window to the full 24-hour TTL: sampled at the same instant `now`, the
remaining TTL before the call is `exp - now` (strictly less than the full
window whenever any time has passed since the last refresh), and the
remaining TTL after either call is the full `SESSION_TTL` — a strict
increase (sliding window). -/
theorem redis_sliding_ttl {Pos Move : Type} (lib : ChessLib Pos Move)
    (oracle : Pos → EngineOutcome Move) (engOracle : Pos → EngineMoveResponse)
    (llmCall : Feedback → String → Except String LLMObj) (api_key : Option String)
    (st : RedisState) (sid : String) (now : Nat) (d : SessD) (exp : Nat)
    (move_str : String) (res : ApplyResult) (st2 : RedisState)
    (hlk : rlookup st.entries (_session_key sid) = some (d, exp))
    (halive : now < exp) (hslide : exp < now + SESSION_TTL)
    (hap : RedisSessionManager.apply_move lib oracle engOracle llmCall api_key st sid
      move_str now = .ok (res, st2)) :
    redis_ttl st (_session_key sid) now = some (exp - now) ∧
    exp - now < SESSION_TTL ∧
    RedisSessionManager.get lib st sid now =
      .ok (_deserialize_session lib d, redis_expire st (_session_key sid) SESSION_TTL now) ∧
    redis_ttl (redis_expire st (_session_key sid) SESSION_TTL now) (_session_key sid) now =
      some SESSION_TTL ∧
    redis_ttl st2 (_session_key sid) now = some SESSION_TTL := by
  have httl0 : redis_ttl st (_session_key sid) now = some (exp - now) := by
    simp [redis_ttl, hlk, halive]
  have hpos : 0 < SESSION_TTL := by decide
  have hget : RedisSessionManager.get lib st sid now =
      .ok (_deserialize_session lib d, redis_expire st (_session_key sid) SESSION_TTL now) := by
    simp [RedisSessionManager.get, redis_get, hlk, halive]
  have hexp : redis_expire st (_session_key sid) SESSION_TTL now =
      { entries := rset st.entries (_session_key sid) d (now + SESSION_TTL) } := by
    simp [redis_expire, hlk, halive]
  have httl1 : redis_ttl (redis_expire st (_session_key sid) SESSION_TTL now)
      (_session_key sid) now = some SESSION_TTL := by
    rw [hexp]
    simp only [redis_ttl, rlookup_rset]
    rw [if_pos (by omega)]
    congr 1
    omega
  refine ⟨httl0, by omega, hget, httl1, ?_⟩
  simp only [RedisSessionManager.apply_move] at hap
  simp only [hget] at hap
  split at hap
  · exact absurd hap (by simp)
  · split at hap
    · have hst2 := (congrArg Prod.snd (Except.ok.inj hap)).symm
      subst hst2
      simp only [redis_ttl, redis_setex, rlookup_rset]
      rw [if_pos (by omega)]
      congr 1
      omega
    · have hst2 := (congrArg Prod.snd (Except.ok.inj hap)).symm
      subst hst2
      exact httl1

/-- Witness for C7: the concrete store with expiry 100 sampled at time 50. -/
theorem redis_sliding_ttl_witness :
    redis_ttl toyStore (_session_key "s1") 50 = some (100 - 50) ∧
    100 - 50 < SESSION_TTL ∧
    redis_ttl (extractOk (rejectResult, toyStore)
      (RedisSessionManager.apply_move natLib toyOracle toyEngMove toyLlmCall none
        toyStore "s1" "e2e4" 50)).2 (_session_key "s1") 50 = some SESSION_TTL := by
  have h := redis_sliding_ttl natLib toyOracle toyEngMove toyLlmCall none toyStore "s1" 50
    toySessD 100 "e2e4"
    (extractOk (rejectResult, toyStore)
      (RedisSessionManager.apply_move natLib toyOracle toyEngMove toyLlmCall none
        toyStore "s1" "e2e4" 50)).1
    (extractOk (rejectResult, toyStore)
      (RedisSessionManager.apply_move natLib toyOracle toyEngMove toyLlmCall none
        toyStore "s1" "e2e4" 50)).2
    rfl (by decide) (by decide) rfl
  exact ⟨h.1, h.2.1, h.2.2.2.2⟩
